import Mathlib

/-!
Verification of the HSI data-cube engine (`peppy/hsi/cube.py`).

The cube data is modelled as a flat element buffer (`flat : Nat → Int`)
together with the cube geometry; numpy's `reshape` to the interleave's
natural axis order and its slicing are embedded as index arithmetic in
row-major (C) order, exactly as numpy addresses a reshaped 1-D buffer.
-/

/-- The three recognised interleaves. -/
inductive Interleave where
  | bip
  | bil
  | bsq
deriving DecidableEq, Repr

/-- State shared by the three `MMap*CubeReader` classes: the geometry copied
from the cube (`self.lines`, `self.samples`, `self.bands`) and the flat
typed element buffer that `numpy.reshape` views in 3-D. -/
structure MMapReader where
  lines : Nat
  samples : Nat
  bands : Nat
  flat : Nat → Int

namespace MMapBIPCubeReader

/-- `self.raw` after `shape`: `reshape(flat, (lines, samples, bands))`;
`raw[i][j][k]` is `flat[i*samples*bands + j*bands + k]` (row-major). -/
def raw (r : MMapReader) (i j k : Nat) : Int :=
  r.flat (i * r.samples * r.bands + j * r.bands + k)

/-- `getPixel`: `self.raw[line][sample][band]`. -/
def getPixel (r : MMapReader) (line sample band : Nat) : Int :=
  raw r line sample band

/-- `getBandRaw`: `self.raw[:, :, band]`, a (lines x samples) slice. -/
def getBandRaw (r : MMapReader) (band : Nat) : Nat → Nat → Int :=
  fun l s => raw r l s band

/-- `getSpectraRaw`: `self.raw[line, sample, :]`, a (bands) slice. -/
def getSpectraRaw (r : MMapReader) (line sample : Nat) : Nat → Int :=
  fun b => raw r line sample b

/-- `getFocalPlaneRaw`: `self.raw[line, :, :].T`, a (bands x samples) slice. -/
def getFocalPlaneRaw (r : MMapReader) (line : Nat) : Nat → Nat → Int :=
  fun b s => raw r line s b

/-- `getFocalPlaneDepthRaw`: `self.raw[:, sample, band]`, a (lines) slice. -/
def getFocalPlaneDepthRaw (r : MMapReader) (sample band : Nat) : Nat → Int :=
  fun l => raw r l sample band

/-- `getLineOfSpectraCopy`: `self.raw[line, :, :].copy()`, an owned
(samples x bands) array materialised as a list of rows. -/
def getLineOfSpectraCopy (r : MMapReader) (line : Nat) : List (List Int) :=
  (List.range r.samples).map fun s => (List.range r.bands).map fun b => raw r line s b

/-- `getBandBoundary`: `1`. -/
def getBandBoundary (_ : MMapReader) : Nat := 1

/-- `flatToLocation`: integer divisions by `bands*samples` and `bands`. -/
def flatToLocation (r : MMapReader) (pos : Nat) : Nat × Nat × Nat :=
  let line := pos / (r.bands * r.samples)
  let temp := pos % (r.bands * r.samples)
  let sample := temp / r.bands
  let band := temp % r.bands
  (line, sample, band)

/-- `locationToFlat`: `line*bands*samples + sample*bands + band`. -/
def locationToFlat (r : MMapReader) (line sample band : Nat) : Nat :=
  line * r.bands * r.samples + sample * r.bands + band

end MMapBIPCubeReader

namespace MMapBILCubeReader

/-- `self.raw` after `shape`: `reshape(flat, (lines, bands, samples))`. -/
def raw (r : MMapReader) (i j k : Nat) : Int :=
  r.flat (i * r.bands * r.samples + j * r.samples + k)

/-- `getPixel`: `self.raw[line][band][sample]`. -/
def getPixel (r : MMapReader) (line sample band : Nat) : Int :=
  raw r line band sample

/-- `getBandRaw`: `self.raw[:, band, :]`. -/
def getBandRaw (r : MMapReader) (band : Nat) : Nat → Nat → Int :=
  fun l s => raw r l band s

/-- `getSpectraRaw`: `self.raw[line, :, sample]`. -/
def getSpectraRaw (r : MMapReader) (line sample : Nat) : Nat → Int :=
  fun b => raw r line b sample

/-- `getFocalPlaneRaw`: `self.raw[line, :, :]`, a (bands x samples) slice. -/
def getFocalPlaneRaw (r : MMapReader) (line : Nat) : Nat → Nat → Int :=
  fun b s => raw r line b s

/-- `getFocalPlaneDepthRaw`: `self.raw[:, band, sample]`. -/
def getFocalPlaneDepthRaw (r : MMapReader) (sample band : Nat) : Nat → Int :=
  fun l => raw r l band sample

/-- `getLineOfSpectraCopy`: `numpy.transpose(self.raw[line, :, :].copy())`;
`raw[line]` is (bands x samples), so the transpose is (samples x bands). -/
def getLineOfSpectraCopy (r : MMapReader) (line : Nat) : List (List Int) :=
  (List.range r.samples).map fun s => (List.range r.bands).map fun b => raw r line b s

/-- `getBandBoundary`: `samples`. -/
def getBandBoundary (r : MMapReader) : Nat := r.samples

/-- `flatToLocation`: divisions by `bands*samples` and `samples`. -/
def flatToLocation (r : MMapReader) (pos : Nat) : Nat × Nat × Nat :=
  let line := pos / (r.bands * r.samples)
  let temp := pos % (r.bands * r.samples)
  let band := temp / r.samples
  let sample := temp % r.samples
  (line, sample, band)

/-- `locationToFlat`: `line*bands*samples + band*samples + sample`. -/
def locationToFlat (r : MMapReader) (line sample band : Nat) : Nat :=
  line * r.bands * r.samples + band * r.samples + sample

end MMapBILCubeReader

namespace MMapBSQCubeReader

/-- `self.raw` after `shape`: `reshape(flat, (bands, lines, samples))`. -/
def raw (r : MMapReader) (i j k : Nat) : Int :=
  r.flat (i * r.lines * r.samples + j * r.samples + k)

/-- `getPixel`: `self.raw[band][line][sample]`. -/
def getPixel (r : MMapReader) (line sample band : Nat) : Int :=
  raw r band line sample

/-- `getBandRaw`: `self.raw[band, :, :]`. -/
def getBandRaw (r : MMapReader) (band : Nat) : Nat → Nat → Int :=
  fun l s => raw r band l s

/-- `getSpectraRaw`: `self.raw[:, line, sample]`. -/
def getSpectraRaw (r : MMapReader) (line sample : Nat) : Nat → Int :=
  fun b => raw r b line sample

/-- `getFocalPlaneRaw`: `self.raw[:, line, :]`, a (bands x samples) slice. -/
def getFocalPlaneRaw (r : MMapReader) (line : Nat) : Nat → Nat → Int :=
  fun b s => raw r b line s

/-- `getFocalPlaneDepthRaw`: `self.raw[band, :, sample]`. -/
def getFocalPlaneDepthRaw (r : MMapReader) (sample band : Nat) : Nat → Int :=
  fun l => raw r band l sample

/-- `getLineOfSpectraCopy`: `numpy.transpose(self.raw[:, line, :].copy())`;
`raw[:, line, :]` is (bands x samples), so the transpose is (samples x bands). -/
def getLineOfSpectraCopy (r : MMapReader) (line : Nat) : List (List Int) :=
  (List.range r.samples).map fun s => (List.range r.bands).map fun b => raw r b line s

/-- `getBandBoundary`: `samples*lines`. -/
def getBandBoundary (r : MMapReader) : Nat := r.samples * r.lines

/-- `flatToLocation`: divisions by `lines*samples` and `samples`. -/
def flatToLocation (r : MMapReader) (pos : Nat) : Nat × Nat × Nat :=
  let band := pos / (r.lines * r.samples)
  let temp := pos % (r.lines * r.samples)
  let line := temp / r.samples
  let sample := temp % r.samples
  (line, sample, band)

/-- `locationToFlat`: `band*lines*samples + line*samples + sample`. -/
def locationToFlat (r : MMapReader) (line sample band : Nat) : Nat :=
  band * r.lines * r.samples + line * r.samples + sample

end MMapBSQCubeReader

namespace CubeReader

/-- Dispatch of `getPixel` on the interleave, as `getMMapCubeReader` selects
the reader class. -/
def getPixel (il : Interleave) (r : MMapReader) (line sample band : Nat) : Int :=
  match il with
  | .bip => MMapBIPCubeReader.getPixel r line sample band
  | .bil => MMapBILCubeReader.getPixel r line sample band
  | .bsq => MMapBSQCubeReader.getPixel r line sample band

/-- Dispatch of `getBandRaw` on the interleave. -/
def getBandRaw (il : Interleave) (r : MMapReader) (band : Nat) : Nat → Nat → Int :=
  match il with
  | .bip => MMapBIPCubeReader.getBandRaw r band
  | .bil => MMapBILCubeReader.getBandRaw r band
  | .bsq => MMapBSQCubeReader.getBandRaw r band

/-- Dispatch of `getSpectraRaw` on the interleave. -/
def getSpectraRaw (il : Interleave) (r : MMapReader) (line sample : Nat) : Nat → Int :=
  match il with
  | .bip => MMapBIPCubeReader.getSpectraRaw r line sample
  | .bil => MMapBILCubeReader.getSpectraRaw r line sample
  | .bsq => MMapBSQCubeReader.getSpectraRaw r line sample

/-- Dispatch of `getFocalPlaneRaw` on the interleave. -/
def getFocalPlaneRaw (il : Interleave) (r : MMapReader) (line : Nat) : Nat → Nat → Int :=
  match il with
  | .bip => MMapBIPCubeReader.getFocalPlaneRaw r line
  | .bil => MMapBILCubeReader.getFocalPlaneRaw r line
  | .bsq => MMapBSQCubeReader.getFocalPlaneRaw r line

/-- Dispatch of `getFocalPlaneDepthRaw` on the interleave. -/
def getFocalPlaneDepthRaw (il : Interleave) (r : MMapReader) (sample band : Nat) :
    Nat → Int :=
  match il with
  | .bip => MMapBIPCubeReader.getFocalPlaneDepthRaw r sample band
  | .bil => MMapBILCubeReader.getFocalPlaneDepthRaw r sample band
  | .bsq => MMapBSQCubeReader.getFocalPlaneDepthRaw r sample band

/-- Dispatch of `getLineOfSpectraCopy` on the interleave. -/
def getLineOfSpectraCopy (il : Interleave) (r : MMapReader) (line : Nat) :
    List (List Int) :=
  match il with
  | .bip => MMapBIPCubeReader.getLineOfSpectraCopy r line
  | .bil => MMapBILCubeReader.getLineOfSpectraCopy r line
  | .bsq => MMapBSQCubeReader.getLineOfSpectraCopy r line

/-- Dispatch of `flatToLocation` on the interleave. -/
def flatToLocation (il : Interleave) (r : MMapReader) (pos : Nat) : Nat × Nat × Nat :=
  match il with
  | .bip => MMapBIPCubeReader.flatToLocation r pos
  | .bil => MMapBILCubeReader.flatToLocation r pos
  | .bsq => MMapBSQCubeReader.flatToLocation r pos

/-- Dispatch of `locationToFlat` on the interleave. -/
def locationToFlat (il : Interleave) (r : MMapReader) (line sample band : Nat) : Nat :=
  match il with
  | .bip => MMapBIPCubeReader.locationToFlat r line sample band
  | .bil => MMapBILCubeReader.locationToFlat r line sample band
  | .bsq => MMapBSQCubeReader.locationToFlat r line sample band

end CubeReader

/-- Cube-level state used by the streaming re-interleaver: the bound reader
(`cube_io`) with its geometry, the current interleave, the element size in
bytes (`self.itemsize`) and `self.data_bytes`. -/
structure CubeM where
  rd : MMapReader
  interleave : Interleave
  itemsize : Nat
  data_bytes : Nat

namespace Cube

/-- `Cube.getFocalPlaneRaw`: delegates to `self.cube_io.getFocalPlaneRaw`. -/
def getFocalPlaneRaw (c : CubeM) (line : Nat) : Nat → Nat → Int :=
  CubeReader.getFocalPlaneRaw c.interleave c.rd line

/-- `Cube.getBandRaw`: delegates to `self.cube_io.getBandRaw`. -/
def getBandRaw (c : CubeM) (band : Nat) : Nat → Nat → Int :=
  CubeReader.getBandRaw c.interleave c.rd band

/-- One element of an `ndarray.tostring` byte string: `itemsize` bytes of the
element in little-endian two's complement. -/
def intToBytes (itemsize : Nat) (x : Int) : List Nat :=
  (List.range itemsize).map fun k => ((x % ((2 : Int) ^ (8 * itemsize))).toNat / 256 ^ k) % 256

/-- `ndarray.tostring` of a row-major element sequence. -/
def tostring (itemsize : Nat) (elts : List Int) : List Nat :=
  (elts.map (intToBytes itemsize)).flatten

/-- `Cube.iterRawBIP`: for each line, the bytes of
`getFocalPlaneRaw(i).transpose()` — the (samples x bands) plane in row-major
order, so bands vary fastest. -/
def iterRawBIP (c : CubeM) : List (List Nat) :=
  (List.range c.rd.lines).map fun l =>
    tostring c.itemsize
      (((List.range c.rd.samples).map fun s =>
        (List.range c.rd.bands).map fun b => getFocalPlaneRaw c l b s).flatten)

/-- `Cube.iterRawBIL`: for each line, the bytes of `getFocalPlaneRaw(i)` —
the (bands x samples) plane in row-major order, so samples vary fastest. -/
def iterRawBIL (c : CubeM) : List (List Nat) :=
  (List.range c.rd.lines).map fun l =>
    tostring c.itemsize
      (((List.range c.rd.bands).map fun b =>
        (List.range c.rd.samples).map fun s => getFocalPlaneRaw c l b s).flatten)

/-- `Cube.iterRawBSQ`: for each band, the bytes of `getBandRaw(i)` — the
(lines x samples) plane in row-major order. -/
def iterRawBSQ (c : CubeM) : List (List Nat) :=
  (List.range c.rd.bands).map fun b =>
    tostring c.itemsize
      (((List.range c.rd.lines).map fun l =>
        (List.range c.rd.samples).map fun s => getBandRaw c b l s).flatten)

/-- The atomic units that `getRawIterator` hands to `iterRaw` for a target
interleave (the dictionary dispatch in `Cube.getRawIterator`). -/
def unitsFor (c : CubeM) (target : Interleave) : List (List Nat) :=
  match target with
  | .bip => iterRawBIP c
  | .bil => iterRawBIL c
  | .bsq => iterRawBSQ c

/-- The inner `while bi < count` loop of `Cube.iterRaw`: with `buf` holding
the `i` buffered bytes, split one unit `bytes` into full blocks of exactly
`size` bytes, returning the yielded blocks and the new buffer.  (The loop is
only ever entered with `buf.length < size`; the guard `0 < size - buf.length`
makes the recursion total on all inputs.) -/
def emitBlocksAux (size : Nat) : Nat → List Nat → List Nat → List (List Nat) × List Nat
  | 0, buf, bytes => ([], buf ++ bytes)
  | fuel + 1, buf, bytes =>
      if size - buf.length ≤ bytes.length ∧ 0 < size - buf.length then
        let u := size - buf.length
        let r := emitBlocksAux size fuel [] (bytes.drop u)
        ((buf ++ bytes.take u) :: r.1, r.2)
      else ([], buf ++ bytes)

/-- Entry to the inner loop; each iteration consumes at least one byte, so
`bytes.length + 1` units of fuel always suffice. -/
def emitBlocks (size : Nat) (buf bytes : List Nat) : List (List Nat) × List Nat :=
  emitBlocksAux size (bytes.length + 1) buf bytes

/-- The outer `for bytes in interleaveiter()` loop of `Cube.iterRaw`,
including the final flush of a non-empty leftover buffer. -/
def iterRawGo (size : Nat) : List Nat → List (List Nat) → List (List Nat)
  | buf, [] => if 0 < buf.length then [buf] else []
  | buf, u :: us =>
      if buf.length + u.length < size then iterRawGo size (buf ++ u) us
      else (emitBlocks size buf u).1 ++ iterRawGo size (emitBlocks size buf u).2 us

/-- `Cube.iterRaw(size, interleaveiter)`: the stream of yielded blocks. -/
def iterRaw (size : Nat) (units : List (List Nat)) : List (List Nat) :=
  iterRawGo size [] units

/-- `Cube.getRawIterator(block_size, interleave)` for a recognised target
interleave. -/
def getRawIterator (c : CubeM) (block_size : Nat) (target : Interleave) :
    List (List Nat) :=
  iterRaw block_size (unitsFor c target)

end Cube

/-- `Cube.writeRawData(fh, options, progress, block_size)`: the sequence of
integer percentages passed to the progress hook, one call per written block.
The code computes `num_blocks = data_bytes / block_size + 1` (floor division)
and calls `progress((count * 100) / num_blocks)` with `count` still holding
the number of previously written blocks. -/
def Cube.writeRawData (c : CubeM) (block_size : Nat) (target : Interleave) : List Nat :=
  let num_blocks := c.data_bytes / block_size + 1
  let blocks := Cube.getRawIterator c block_size target
  (List.range blocks.length).map fun count => count * 100 / num_blocks

/-- `ndarray.min()` of a non-empty array. -/
def amin : List Int → Int
  | [] => 0
  | x :: xs => xs.foldl min x

/-- `ndarray.max()` of a non-empty array. -/
def amax : List Int → Int
  | [] => 0
  | x :: xs => xs.foldl max x

/-- `Cube.updateExtrema(spectra)` acting on `self.spectraextrema`: adopt the
slice minimum/maximum when the stored entry is `None` or is improved on. -/
def Cube.updateExtrema (ext : Option Int × Option Int) (spectra : List Int) :
    Option Int × Option Int :=
  let mn := amin spectra
  let e0 := match ext.1 with
    | none => some mn
    | some v => if mn < v then some mn else some v
  let mx := amax spectra
  let e1 := match ext.2 with
    | none => some mx
    | some v => if v < mx then some mx else some v
  (e0, e1)


/-- ENVI-style element data types (`cube.data_type` as a numpy dtype). -/
inductive DType where
  | int8
  | int16
  | int32
  | float32
  | float64
  | uint16
  | uint32
  | int64
  | uint64
deriving DecidableEq, Repr

/-- Bytes per element of each data type
(`numpy.empty([1], dtype=self.data_type).itemsize`). -/
def DType.itemsize : DType → Nat
  | .int8 => 1
  | .int16 => 2
  | .int32 => 4
  | .float32 => 4
  | .float64 => 8
  | .uint16 => 2
  | .uint32 => 4
  | .int64 => 8
  | .uint64 => 8

/-- The `Cube` descriptor state touched by `open`, `initialize`,
`verifyAttributes` and `getBandListByWavelength`.  Geometry fields are `Int`
because the constructor initialises them to -1; `interleave` is `none` for
an unrecognised interleave string.  (`file_date`, the georeferencing fields
and the progress bar are not modelled: no claim mentions them and they never
feed back into the modelled operations.) -/
structure CubeState where
  url : Option String
  interleave : Option Interleave
  lines : Int
  samples : Int
  bands : Int
  data_type : Option DType
  file_offset : Int
  header_offset : Int
  data_offset : Int
  data_bytes : Int
  itemsize : Int
  wavelengths : List ℚ
  bbl : List Int
  wavelength_units : Option String
  scale_factor : Option ℚ
  cube_io : Option MMapReader

/-- `Cube.initializeOffset`: derive `data_offset` from
`file_offset + header_offset` when some offset is present and it is unset. -/
def Cube.initializeOffset (c : CubeState) : CubeState :=
  if 0 < c.header_offset ∨ 0 < c.file_offset then
    if c.data_offset = 0 then
      { c with data_offset := c.file_offset + c.header_offset }
    else c
  else c

/-- `Cube.initializeSizes` as called from `open` (both arguments `None`):
compute `itemsize` from the data type and derive `data_bytes` from the
geometry when it is zero. -/
def Cube.initializeSizes (c : CubeState) : CubeState :=
  let c1 := match c.data_type with
    | some dt => { c with itemsize := (dt.itemsize : Int) }
    | none => c
  if c1.data_bytes = 0 then
    { c1 with data_bytes := c1.itemsize * c1.samples * c1.lines * c1.bands }
  else c1

/-- `Cube.initialize` as called from `open`: sizes, then offsets. -/
def Cube.initialize (c : CubeState) : CubeState :=
  Cube.initializeOffset (Cube.initializeSizes c)

/-- `Cube.guessScaleFactor`: integer types map to 10000.0, float types and
everything else to 1.0. -/
def Cube.guessScaleFactor (dt : Option DType) : ℚ :=
  match dt with
  | some .int8 | some .int16 | some .int32 | some .uint16 | some .uint32
  | some .int64 | some .uint64 => 10000
  | some .float32 | some .float64 => 1
  | none => 1

/-- `Cube.guessWavelengthUnits`: micrometers when the last wavelength is
below 100, else nanometers. -/
def Cube.guessWavelengthUnits (c : CubeState) : CubeState :=
  if c.wavelengths.getLastD 0 < 100 then
    { c with wavelength_units := some "um" }
  else
    { c with wavelength_units := some "nm" }

/-- `Cube.verifyAttributes` (the file-date recording through the VFS is
omitted; the byte-order branch is a no-op in the source). -/
def Cube.verifyAttributes (c : CubeState) : CubeState :=
  let c1 := if c.scale_factor = none then
      { c with scale_factor := some (Cube.guessScaleFactor c.data_type) }
    else c
  let c2 := if c1.bbl = [] then
      { c1 with bbl := List.replicate c1.bands.toNat 1 }
    else c1
  if 0 < c2.wavelengths.length ∧ c2.wavelength_units = none then
    Cube.guessWavelengthUnits c2
  else c2

/-- `Cube.open(url)`: the post-call state together with the raised error, if
any (`TypeError` from `getCubeReader` on an unrecognised interleave,
`IOError` when no url is set).  The reader construction
`cube_io_cls(self, self.url)` is abstracted by `mk` since it reads bytes
through the VFS; `vfs.normalize` in `setURL` is modelled as the identity. -/
def Cube.openState (mk : CubeState → MMapReader) (url : Option String)
    (c : CubeState) : CubeState × Option String :=
  let c0 := match url with
    | some u => { c with url := some u, cube_io := none }
    | none => c
  match c0.url with
  | some _ =>
      match c0.cube_io with
      | some _ => (c0, none)
      | none =>
          let c1 := Cube.initialize c0
          match c1.interleave with
          | none => (c1, some "TypeError: Unknown interleave")
          | some _ =>
              let c2 := { c1 with cube_io := some (mk c1) }
              (Cube.verifyAttributes c2, none)
  | none => (c0, some "IOError: No url specified.")

/-- Modelled from the spec: `utils.units_scale` (the `utils` module is not
among the sources).  Spec §4.2 calls it "a unit-scale table (meters →
nanometers → micrometers)", so each unit tag maps to its size in meters. -/
def units_scale (u : String) : ℚ :=
  if u = "nm" then 1 / 1000000000
  else if u = "um" then 1 / 1000000
  else 1

/-- `Cube.normalizeUnits`: `val * units_scale[units] / units_scale[cube]`,
or `val` unchanged when the cube has no wavelength units. -/
def Cube.normalizeUnits (c : CubeState) (val : ℚ) (units : String) : ℚ :=
  match c.wavelength_units with
  | none => val
  | some cu => val * units_scale units / units_scale cu

/-- The first loop of `Cube.getBandListByWavelength`: the ascending list of
channels with `bbl[ch] == 1` and wavelength inside `[wmin, wmax]`. -/
def Cube.bandWindow (c : CubeState) (wmin wmax : ℚ) : List Nat :=
  (List.range c.bands.toNat).filter fun ch =>
    decide (c.bbl.getD ch 0 = 1 ∧ wmin ≤ c.wavelengths.getD ch 0 ∧
      c.wavelengths.getD ch 0 ≤ wmax)

/-- The final loop of `Cube.getBandListByWavelength`: the first channel
`ch < bands - 1` with `bbl[ch] == 1` whose wavelength pair straddles the
window center. -/
def Cube.straddleSearch (c : CubeState) (center : ℚ) : Option Nat :=
  (List.range (c.bands.toNat - 1)).find? fun ch =>
    decide (c.bbl.getD ch 0 = 1 ∧ c.wavelengths.getD ch 0 < center ∧
      center < c.wavelengths.getD (ch + 1) 0)

/-- `Cube.getBandListByWavelength(wavelen_min, wavelen_max=-1, units='nm')`:
collect the good bands inside the normalized window, falling back to a
nearest-band search around the window center when the window is empty. -/
def Cube.getBandListByWavelength (c : CubeState) (wavelen_min wavelen_max : ℚ)
    (units : String) : List Nat :=
  let wavelen_max1 := if wavelen_max < 0 then wavelen_min else wavelen_max
  let wmin := Cube.normalizeUnits c wavelen_min units
  let wmax := Cube.normalizeUnits c wavelen_max1 units
  if c.wavelengths.length = 0 then []
  else
    let bandlist := Cube.bandWindow c wmin wmax
    if bandlist = [] then
      let center := (wmax + wmin) / 2
      if center < c.wavelengths.getD 0 0 then
        ((List.range c.bands.toNat).find? fun ch =>
          decide (c.bbl.getD ch 0 = 1)).toList
      else if c.wavelengths.getD (c.bands.toNat - 1) 0 < center then
        (((List.range c.bands.toNat).reverse).find? fun ch =>
          decide (c.bbl.getD ch 0 = 1)).toList
      else
        match Cube.straddleSearch c center with
        | some ch =>
            if center - c.wavelengths.getD ch 0 <
                c.wavelengths.getD (ch + 1) 0 - center then [ch]
            else [ch + 1]
        | none => []
    else bandlist

/-- The window filter applied to the normalized endpoints, as computed
inside `getBandListByWavelength`. -/
def Cube.normWindow (c : CubeState) (wavelen_min wavelen_max : ℚ)
    (units : String) : List Nat :=
  Cube.bandWindow c (Cube.normalizeUnits c wavelen_min units)
    (Cube.normalizeUnits c (if wavelen_max < 0 then wavelen_min else wavelen_max)
      units)

/-- The window center `(wavelen_max + wavelen_min) / 2.0` after unit
normalization. -/
def Cube.windowCenter (c : CubeState) (wavelen_min wavelen_max : ℚ)
    (units : String) : ℚ :=
  (Cube.normalizeUnits c (if wavelen_max < 0 then wavelen_min else wavelen_max)
      units
    + Cube.normalizeUnits c wavelen_min units) / 2

/-- The cube of spec property P6: 20 bands at wavelengths 400 + 10·i nm,
all bands good. -/
def wavelengthTestCube : CubeState where
  url := none
  interleave := some Interleave.bip
  lines := 1
  samples := 1
  bands := 20
  data_type := none
  file_offset := 0
  header_offset := 0
  data_offset := 0
  data_bytes := 0
  itemsize := 0
  wavelengths := (List.range 20).map fun i => (400 : ℚ) + 10 * i
  bbl := List.replicate 20 1
  wavelength_units := some "nm"
  scale_factor := none
  cube_io := none

/-- A cube whose middle band is flagged bad: wavelengths 400, 410, 420 nm
with `bbl = [1, 0, 1]`. -/
def badBandCube : CubeState where
  url := none
  interleave := some Interleave.bip
  lines := 1
  samples := 1
  bands := 3
  data_type := none
  file_offset := 0
  header_offset := 0
  data_offset := 0
  data_bytes := 0
  itemsize := 0
  wavelengths := [400, 410, 420]
  bbl := [1, 0, 1]
  wavelength_units := none
  scale_factor := none
  cube_io := none

/-- A fully populated descriptor with a bound reader, as left behind by a
successful `open`. -/
def openTestCube : CubeState where
  url := some "file:///cube.raw"
  interleave := some Interleave.bip
  lines := 4
  samples := 5
  bands := 3
  data_type := some DType.int16
  file_offset := 0
  header_offset := 0
  data_offset := 0
  data_bytes := 120
  itemsize := 2
  wavelengths := []
  bbl := [1, 1, 1]
  wavelength_units := none
  scale_factor := some 1
  cube_io := some ⟨4, 5, 3, fun i => (i : Int)⟩

/-- Splitting a unit into blocks loses no bytes and keeps their order. -/
theorem emitBlocksAux_flatten (size : Nat) (fuel : Nat) :
    ∀ buf bytes : List Nat, bytes.length < fuel →
      (Cube.emitBlocksAux size fuel buf bytes).1.flatten
          ++ (Cube.emitBlocksAux size fuel buf bytes).2
        = buf ++ bytes := by
  induction fuel with
  | zero => intro buf bytes h; omega
  | succ fuel ih =>
    intro buf bytes h
    rw [Cube.emitBlocksAux]
    split
    case isTrue hc =>
      have hlen : (bytes.drop (size - buf.length)).length < fuel := by
        simp only [List.length_drop]
        omega
      have := ih [] (bytes.drop (size - buf.length)) hlen
      simp only [List.flatten_cons, List.append_assoc, this, List.nil_append]
      rw [List.take_append_drop]
    case isFalse hc =>
      simp

/-- `emitBlocks` loses no bytes and keeps their order. -/
theorem emitBlocks_flatten (size : Nat) (buf bytes : List Nat) :
    (Cube.emitBlocks size buf bytes).1.flatten ++ (Cube.emitBlocks size buf bytes).2
      = buf ++ bytes :=
  emitBlocksAux_flatten size (bytes.length + 1) buf bytes (Nat.lt_succ_self _)

/-- Every block split off a unit has length exactly `size`. -/
theorem emitBlocksAux_block_len (size : Nat) (fuel : Nat) :
    ∀ buf bytes : List Nat, bytes.length < fuel →
      ∀ blk ∈ (Cube.emitBlocksAux size fuel buf bytes).1, blk.length = size := by
  induction fuel with
  | zero => intro buf bytes h; omega
  | succ fuel ih =>
    intro buf bytes h
    rw [Cube.emitBlocksAux]
    split
    case isTrue hc =>
      intro blk hblk
      rcases List.mem_cons.mp hblk with h1 | h2
      · subst h1
        rw [List.length_append, List.length_take]
        omega
      · have hlen : (bytes.drop (size - buf.length)).length < fuel := by
          simp only [List.length_drop]
          omega
        exact ih [] (bytes.drop (size - buf.length)) hlen blk h2
    case isFalse hc =>
      intro blk hblk
      simp at hblk

/-- Every block split off a unit by `emitBlocks` has length exactly `size`. -/
theorem emitBlocks_block_len (size : Nat) (buf bytes : List Nat) :
    ∀ blk ∈ (Cube.emitBlocks size buf bytes).1, blk.length = size :=
  emitBlocksAux_block_len size (bytes.length + 1) buf bytes (Nat.lt_succ_self _)

/-- The leftover buffer after splitting a unit is strictly shorter than the
block size, provided the incoming buffer was. -/
theorem emitBlocksAux_buf_lt (size : Nat) (fuel : Nat) :
    ∀ buf bytes : List Nat, bytes.length < fuel → buf.length < size →
      (Cube.emitBlocksAux size fuel buf bytes).2.length < size := by
  induction fuel with
  | zero => intro buf bytes h; omega
  | succ fuel ih =>
    intro buf bytes h hbuf
    rw [Cube.emitBlocksAux]
    split
    case isTrue hc =>
      have hlen : (bytes.drop (size - buf.length)).length < fuel := by
        simp only [List.length_drop]
        omega
      exact ih [] (bytes.drop (size - buf.length)) hlen
        (by simp only [List.length_nil]; omega)
    case isFalse hc =>
      simp only [List.length_append]
      omega

/-- The leftover buffer of `emitBlocks` stays shorter than the block size. -/
theorem emitBlocks_buf_lt (size : Nat) (buf bytes : List Nat)
    (hbuf : buf.length < size) :
    (Cube.emitBlocks size buf bytes).2.length < size :=
  emitBlocksAux_buf_lt size (bytes.length + 1) buf bytes (Nat.lt_succ_self _) hbuf

/-- The block stream concatenates back to the unit stream. -/
theorem iterRawGo_flatten (size : Nat) (us : List (List Nat)) :
    ∀ buf : List Nat, (Cube.iterRawGo size buf us).flatten = buf ++ us.flatten := by
  induction us with
  | nil =>
    intro buf
    rw [Cube.iterRawGo]
    split
    case isTrue h => simp
    case isFalse h =>
      have : buf = [] := List.eq_nil_of_length_eq_zero (by omega)
      simp [this]
  | cons u us ih =>
    intro buf
    rw [Cube.iterRawGo]
    split
    case isTrue h =>
      rw [ih]
      simp
    case isFalse h =>
      rw [List.flatten_append, ih, ← List.append_assoc, emitBlocks_flatten]
      simp

/-- Every emitted block is non-empty and no longer than the block size. -/
theorem iterRawGo_block_bounds (size : Nat) (hsz : 0 < size)
    (us : List (List Nat)) :
    ∀ buf : List Nat, buf.length < size →
      ∀ blk ∈ Cube.iterRawGo size buf us, 0 < blk.length ∧ blk.length ≤ size := by
  induction us with
  | nil =>
    intro buf hbuf blk hblk
    rw [Cube.iterRawGo] at hblk
    split at hblk
    case isTrue h =>
      rcases List.mem_singleton.mp hblk with rfl
      omega
    case isFalse h => simp at hblk
  | cons u us ih =>
    intro buf hbuf blk hblk
    rw [Cube.iterRawGo] at hblk
    split at hblk
    case isTrue h =>
      exact ih (buf ++ u) (by simp; omega) blk hblk
    case isFalse h =>
      rcases List.mem_append.mp hblk with h1 | h2
      · have := emitBlocks_block_len size buf u blk h1
        omega
      · exact ih _ (emitBlocks_buf_lt size buf u hbuf) blk h2

/-- Every block except possibly the last has length exactly the block
size. -/
theorem iterRawGo_dropLast_full (size : Nat) (hsz : 0 < size)
    (us : List (List Nat)) :
    ∀ buf : List Nat, buf.length < size →
      ∀ blk ∈ (Cube.iterRawGo size buf us).dropLast, blk.length = size := by
  induction us with
  | nil =>
    intro buf hbuf blk hblk
    rw [Cube.iterRawGo] at hblk
    split at hblk <;> simp at hblk
  | cons u us ih =>
    intro buf hbuf blk hblk
    rw [Cube.iterRawGo] at hblk
    split at hblk
    case isTrue h =>
      exact ih (buf ++ u) (by simp; omega) blk hblk
    case isFalse h =>
      by_cases hrest : Cube.iterRawGo size (Cube.emitBlocks size buf u).2 us = []
      · rw [hrest, List.append_nil] at hblk
        exact emitBlocks_block_len size buf u blk
          ((List.dropLast_sublist _).subset hblk)
      · rw [List.dropLast_append_of_ne_nil _ hrest] at hblk
        rcases List.mem_append.mp hblk with h1 | h2
        · exact emitBlocks_block_len size buf u blk h1
        · exact ih _ (emitBlocks_buf_lt size buf u hbuf) blk h2

/-- C3: for every cube, target interleave and positive block size, the
yielded blocks of `getRawIterator` concatenate to the bytes of the target
interleave's natural emission order, that concatenation is the same for
every positive block size, and every block has length exactly `block_size`
except possibly the last, which is no longer. -/
theorem iterRaw_stream (c : CubeM) (target : Interleave) (block_size : Nat)
    (hbs : 0 < block_size) :
    (Cube.getRawIterator c block_size target).flatten = (Cube.unitsFor c target).flatten ∧
    (∀ size2, 0 < size2 →
      (Cube.getRawIterator c size2 target).flatten
        = (Cube.getRawIterator c block_size target).flatten) ∧
    (∀ blk ∈ (Cube.getRawIterator c block_size target).dropLast,
      blk.length = block_size) ∧
    (∀ blk ∈ Cube.getRawIterator c block_size target, blk.length ≤ block_size) := by
  refine ⟨iterRawGo_flatten block_size (Cube.unitsFor c target) [], ?_, ?_, ?_⟩
  · intro size2 _
    simp only [Cube.getRawIterator, Cube.iterRaw]
    rw [iterRawGo_flatten block_size (Cube.unitsFor c target) [],
      iterRawGo_flatten size2 (Cube.unitsFor c target) []]
  · exact iterRawGo_dropLast_full block_size hbs (Cube.unitsFor c target) [] hbs
  · intro blk hblk
    exact (iterRawGo_block_bounds block_size hbs (Cube.unitsFor c target) [] hbs blk hblk).2

/-- C3 witness: the 1 x 2 x 2 BIP arange cube re-emitted as BSQ with block
size 3, via the streaming theorem. -/
theorem iterRaw_stream_witness :
    (0 : Nat) < 3 ∧
    ((Cube.getRawIterator ⟨⟨1, 2, 2, fun i => (i : Int)⟩, Interleave.bip, 1, 4⟩ 3
        Interleave.bsq).flatten
      = (Cube.unitsFor ⟨⟨1, 2, 2, fun i => (i : Int)⟩, Interleave.bip, 1, 4⟩
          Interleave.bsq).flatten ∧
     (∀ size2, 0 < size2 →
       (Cube.getRawIterator ⟨⟨1, 2, 2, fun i => (i : Int)⟩, Interleave.bip, 1, 4⟩ size2
          Interleave.bsq).flatten
        = (Cube.getRawIterator ⟨⟨1, 2, 2, fun i => (i : Int)⟩, Interleave.bip, 1, 4⟩ 3
          Interleave.bsq).flatten) ∧
     (∀ blk ∈ (Cube.getRawIterator ⟨⟨1, 2, 2, fun i => (i : Int)⟩, Interleave.bip, 1, 4⟩ 3
        Interleave.bsq).dropLast, blk.length = 3) ∧
     (∀ blk ∈ Cube.getRawIterator ⟨⟨1, 2, 2, fun i => (i : Int)⟩, Interleave.bip, 1, 4⟩ 3
        Interleave.bsq, blk.length ≤ 3)) :=
  ⟨by decide,
   iterRaw_stream ⟨⟨1, 2, 2, fun i => (i : Int)⟩, Interleave.bip, 1, 4⟩
     Interleave.bsq 3 (by decide)⟩

/-- C10: for every cube, target interleave and positive block size, no
yielded block is empty. -/
theorem iterRaw_no_empty_block (c : CubeM) (target : Interleave) (block_size : Nat)
    (hbs : 0 < block_size) :
    ∀ blk ∈ Cube.getRawIterator c block_size target, 0 < blk.length := by
  intro blk hblk
  exact (iterRawGo_block_bounds block_size hbs (Cube.unitsFor c target) [] hbs blk hblk).1

/-- C10 witness: no empty block on the 1 x 2 x 2 BIP arange cube streamed
as BSQ in blocks of 3 bytes. -/
theorem iterRaw_no_empty_block_witness :
    (0 : Nat) < 3 ∧
    ∀ blk ∈ Cube.getRawIterator ⟨⟨1, 2, 2, fun i => (i : Int)⟩, Interleave.bip, 1, 4⟩ 3
        Interleave.bsq, 0 < blk.length :=
  ⟨by decide,
   iterRaw_no_empty_block ⟨⟨1, 2, 2, fun i => (i : Int)⟩, Interleave.bip, 1, 4⟩
     Interleave.bsq 3 (by decide)⟩

/-- Indexing a mapped range at an in-range position. -/
theorem range_map_getElem? {β : Type} (f : Nat → β) (n i : Nat) (h : i < n) :
    ((List.range n).map f)[i]? = some (f i) := by
  simp [List.getElem?_map, List.getElem?_range h]

/-- C6 counterexample: the 1 x 2 x 2 BIP arange cube (4 data bytes, 1-byte
items) written with block size 2 emits 2 blocks; the hook receives
`[0, 33]`, not the `[50, 100]` demanded by
`blocks_emitted * 100 / ceil(data_bytes / block_size)` with `blocks_emitted`
counting the block just written. -/
theorem writeRawData_progress_cex :
    (Cube.getRawIterator ⟨⟨1, 2, 2, fun i => (i : Int)⟩, Interleave.bip, 1, 4⟩ 2
        Interleave.bip).length = 2 ∧
    Cube.writeRawData ⟨⟨1, 2, 2, fun i => (i : Int)⟩, Interleave.bip, 1, 4⟩ 2
        Interleave.bip
      ≠ (List.range 2).map (fun k => (k + 1) * 100 / ((4 + 2 - 1) / 2)) := by
  constructor
  · decide
  · decide

/-- C6 amended: the hook is invoked exactly once per emitted block, and the
k-th invocation (counting from 0) receives
`k * 100 / (data_bytes / block_size + 1)` with floor division, so the first
call receives 0 and the divisor is one more than `data_bytes / block_size`. -/
theorem writeRawData_progress_amended (c : CubeM) (block_size : Nat)
    (target : Interleave) (k : Nat)
    (hk : k < (Cube.getRawIterator c block_size target).length) :
    (Cube.writeRawData c block_size target).length
      = (Cube.getRawIterator c block_size target).length ∧
    (Cube.writeRawData c block_size target)[k]?
      = some (k * 100 / (c.data_bytes / block_size + 1)) := by
  constructor
  · simp [Cube.writeRawData]
  · show ((List.range (Cube.getRawIterator c block_size target).length).map
        (fun count => count * 100 / (c.data_bytes / block_size + 1)))[k]? = _
    exact range_map_getElem? _ _ _ hk

/-- C6 witness: the amended statement on the 1 x 2 x 2 BIP arange cube with
block size 2, at the second hook invocation. -/
theorem writeRawData_progress_amended_witness :
    (1 : Nat) < (Cube.getRawIterator ⟨⟨1, 2, 2, fun i => (i : Int)⟩, Interleave.bip, 1, 4⟩ 2
        Interleave.bip).length ∧
    ((Cube.writeRawData ⟨⟨1, 2, 2, fun i => (i : Int)⟩, Interleave.bip, 1, 4⟩ 2
        Interleave.bip).length
      = (Cube.getRawIterator ⟨⟨1, 2, 2, fun i => (i : Int)⟩, Interleave.bip, 1, 4⟩ 2
        Interleave.bip).length ∧
     (Cube.writeRawData ⟨⟨1, 2, 2, fun i => (i : Int)⟩, Interleave.bip, 1, 4⟩ 2
        Interleave.bip)[1]?
      = some (1 * 100 / (4 / 2 + 1))) :=
  ⟨by decide,
   writeRawData_progress_amended ⟨⟨1, 2, 2, fun i => (i : Int)⟩, Interleave.bip, 1, 4⟩ 2
     Interleave.bip 1 (by decide)⟩

/-- A left fold of `min` bounds the seed and every folded element. -/
theorem foldl_min_le (xs : List Int) :
    ∀ a : Int, xs.foldl min a ≤ a ∧ ∀ x ∈ xs, xs.foldl min a ≤ x := by
  induction xs with
  | nil => intro a; exact ⟨le_refl a, by intro x hx; simp at hx⟩
  | cons y ys ih =>
    intro a
    refine ⟨le_trans (ih (min a y)).1 (min_le_left a y), ?_⟩
    intro x hx
    rcases List.mem_cons.mp hx with rfl | hx2
    · exact le_trans (ih (min a x)).1 (min_le_right a x)
    · exact (ih (min a y)).2 x hx2

/-- A left fold of `max` dominates the seed and every folded element. -/
theorem foldl_max_ge (xs : List Int) :
    ∀ a : Int, a ≤ xs.foldl max a ∧ ∀ x ∈ xs, x ≤ xs.foldl max a := by
  induction xs with
  | nil => intro a; exact ⟨le_refl a, by intro x hx; simp at hx⟩
  | cons y ys ih =>
    intro a
    refine ⟨le_trans (le_max_left a y) (ih (max a y)).1, ?_⟩
    intro x hx
    rcases List.mem_cons.mp hx with rfl | hx2
    · exact le_trans (le_max_right a x) (ih (max a x)).1
    · exact (ih (max a y)).2 x hx2

/-- `amin` is a lower bound of the array. -/
theorem amin_le (s : List Int) : ∀ x ∈ s, amin s ≤ x := by
  cases s with
  | nil => intro x hx; simp at hx
  | cons y ys =>
    intro x hx
    rcases List.mem_cons.mp hx with rfl | hx2
    · exact (foldl_min_le ys x).1
    · exact (foldl_min_le ys y).2 x hx2

/-- `amax` is an upper bound of the array. -/
theorem amax_ge (s : List Int) : ∀ x ∈ s, x ≤ amax s := by
  cases s with
  | nil => intro x hx; simp at hx
  | cons y ys =>
    intro x hx
    rcases List.mem_cons.mp hx with rfl | hx2
    · exact (foldl_max_ge ys x).1
    · exact (foldl_max_ge ys y).2 x hx2

/-- One `updateExtrema` step: the stored minimum becomes defined, is at most
the slice minimum, and never increases. -/
theorem updateExtrema_fst (ext : Option Int × Option Int) (s : List Int) :
    ∃ w, (Cube.updateExtrema ext s).1 = some w ∧ w ≤ amin s ∧
      ∀ v, ext.1 = some v → w ≤ v := by
  rcases hx : ext.1 with _ | v
  · exact ⟨amin s, by simp [Cube.updateExtrema, hx], le_refl _, by simp [hx]⟩
  · by_cases hlt : amin s < v
    · exact ⟨amin s, by simp [Cube.updateExtrema, hx, hlt], le_refl _,
        by intro v2 hv2; injection hv2 with h; omega⟩
    · exact ⟨v, by simp [Cube.updateExtrema, hx, hlt], by omega,
        by intro v2 hv2; injection hv2 with h; omega⟩

/-- One `updateExtrema` step: the stored maximum becomes defined, is at least
the slice maximum, and never decreases. -/
theorem updateExtrema_snd (ext : Option Int × Option Int) (s : List Int) :
    ∃ w, (Cube.updateExtrema ext s).2 = some w ∧ amax s ≤ w ∧
      ∀ v, ext.2 = some v → v ≤ w := by
  rcases hx : ext.2 with _ | v
  · exact ⟨amax s, by simp [Cube.updateExtrema, hx], le_refl _, by simp [hx]⟩
  · by_cases hlt : v < amax s
    · exact ⟨amax s, by simp [Cube.updateExtrema, hx, hlt], le_refl _,
        by intro v2 hv2; injection hv2 with h; omega⟩
    · exact ⟨v, by simp [Cube.updateExtrema, hx, hlt], by omega,
        by intro v2 hv2; injection hv2 with h; omega⟩

/-- Folding further observations never raises a stored minimum. -/
theorem foldl_extrema_fst_mono (slices : List (List Int)) :
    ∀ (init : Option Int × Option Int) (v : Int), init.1 = some v →
      ∃ w, (slices.foldl Cube.updateExtrema init).1 = some w ∧ w ≤ v := by
  induction slices with
  | nil => intro init v hv; exact ⟨v, hv, le_refl v⟩
  | cons sl rest ih =>
    intro init v hv
    obtain ⟨w1, hw1, _, hmono⟩ := updateExtrema_fst init sl
    obtain ⟨w, hw, hle⟩ := ih (Cube.updateExtrema init sl) w1 hw1
    exact ⟨w, hw, le_trans hle (hmono v hv)⟩

/-- Folding further observations never lowers a stored maximum. -/
theorem foldl_extrema_snd_mono (slices : List (List Int)) :
    ∀ (init : Option Int × Option Int) (v : Int), init.2 = some v →
      ∃ w, (slices.foldl Cube.updateExtrema init).2 = some w ∧ v ≤ w := by
  induction slices with
  | nil => intro init v hv; exact ⟨v, hv, le_refl v⟩
  | cons sl rest ih =>
    intro init v hv
    obtain ⟨w1, hw1, _, hmono⟩ := updateExtrema_snd init sl
    obtain ⟨w, hw, hle⟩ := ih (Cube.updateExtrema init sl) w1 hw1
    exact ⟨w, hw, le_trans (hmono v hv) hle⟩

/-- The folded minimum is at most every observed value. -/
theorem foldl_extrema_fst_obs (slices : List (List Int)) :
    ∀ (init : Option Int × Option Int), ∀ sl ∈ slices, ∀ x ∈ sl,
      ∃ w, (slices.foldl Cube.updateExtrema init).1 = some w ∧ w ≤ x := by
  induction slices with
  | nil => intro init sl hsl; simp at hsl
  | cons sl0 rest ih =>
    intro init sl hsl x hx
    rcases List.mem_cons.mp hsl with rfl | hsl2
    · obtain ⟨w1, hw1, hws, _⟩ := updateExtrema_fst init sl
      obtain ⟨w, hw, hle⟩ := foldl_extrema_fst_mono rest (Cube.updateExtrema init sl) w1 hw1
      exact ⟨w, hw, le_trans hle (le_trans hws (amin_le sl x hx))⟩
    · exact ih (Cube.updateExtrema init sl0) sl hsl2 x hx

/-- The folded maximum is at least every observed value. -/
theorem foldl_extrema_snd_obs (slices : List (List Int)) :
    ∀ (init : Option Int × Option Int), ∀ sl ∈ slices, ∀ x ∈ sl,
      ∃ w, (slices.foldl Cube.updateExtrema init).2 = some w ∧ x ≤ w := by
  induction slices with
  | nil => intro init sl hsl; simp at hsl
  | cons sl0 rest ih =>
    intro init sl hsl x hx
    rcases List.mem_cons.mp hsl with rfl | hsl2
    · obtain ⟨w1, hw1, hws, _⟩ := updateExtrema_snd init sl
      obtain ⟨w, hw, hle⟩ := foldl_extrema_snd_mono rest (Cube.updateExtrema init sl) w1 hw1
      exact ⟨w, hw, le_trans (le_trans (amax_ge sl x hx) hws) hle⟩
    · exact ih (Cube.updateExtrema init sl0) sl hsl2 x hx

/-- C7: over any sequence of observed slices, the extrema pair only widens:
a stored minimum never increases, a stored maximum never decreases, a `None`
entry adopts the first observed slice extremum, and the final extrema bound
every observed value. -/
theorem extrema_monotone (init : Option Int × Option Int) (slices : List (List Int))
    (hne : ∀ sl ∈ slices, sl ≠ []) :
    (∀ sl, init.1 = none → (Cube.updateExtrema init sl).1 = some (amin sl)) ∧
    (∀ sl, init.2 = none → (Cube.updateExtrema init sl).2 = some (amax sl)) ∧
    (∀ v, init.1 = some v →
      ∃ w, (slices.foldl Cube.updateExtrema init).1 = some w ∧ w ≤ v) ∧
    (∀ v, init.2 = some v →
      ∃ w, (slices.foldl Cube.updateExtrema init).2 = some w ∧ v ≤ w) ∧
    (∀ sl ∈ slices, ∀ x ∈ sl,
      ∃ w, (slices.foldl Cube.updateExtrema init).1 = some w ∧ w ≤ x) ∧
    (∀ sl ∈ slices, ∀ x ∈ sl,
      ∃ w, (slices.foldl Cube.updateExtrema init).2 = some w ∧ x ≤ w) :=
  ⟨fun sl h => by simp [Cube.updateExtrema, h],
   fun sl h => by simp [Cube.updateExtrema, h],
   foldl_extrema_fst_mono slices init,
   foldl_extrema_snd_mono slices init,
   foldl_extrema_fst_obs slices init,
   foldl_extrema_snd_obs slices init⟩

/-- C7 witness: from an unset extrema pair, observing the slices
`[[3, 1], [5]]` yields extrema `(some 1, some 5)` bounding every observed
value. -/
theorem extrema_monotone_witness :
    (∀ sl ∈ ([[3, 1], [5]] : List (List Int)), sl ≠ []) ∧
    (∀ sl ∈ ([[3, 1], [5]] : List (List Int)), ∀ x ∈ sl,
      ∃ w, (([[3, 1], [5]] : List (List Int)).foldl Cube.updateExtrema
        (none, none)).1 = some w ∧ w ≤ x) :=
  ⟨by decide,
   (extrema_monotone (none, none) [[3, 1], [5]] (by decide)).2.2.2.2.1⟩

/-- Quotient/remainder evaluation used by the `flatToLocation` inverses. -/
theorem flat_div_mod (q r n : Nat) (h : r < n) :
    (q * n + r) / n = q ∧ (q * n + r) % n = r := by
  have hn : 0 < n := Nat.lt_of_le_of_lt (Nat.zero_le r) h
  constructor
  · rw [Nat.mul_comm q n, Nat.mul_add_div hn, Nat.div_eq_of_lt h, Nat.add_zero]
  · rw [Nat.mul_comm q n, Nat.mul_add_mod, Nat.mod_eq_of_lt h]

/-- C1: for every interleave and every in-range index triple, the five raw
accessors read the same element. -/
theorem pixel_consistency (il : Interleave) (r : MMapReader) (l s b : Nat)
    (hl : l < r.lines) (hs : s < r.samples) (hb : b < r.bands) :
    CubeReader.getPixel il r l s b = CubeReader.getBandRaw il r b l s ∧
    CubeReader.getPixel il r l s b = CubeReader.getSpectraRaw il r l s b ∧
    CubeReader.getPixel il r l s b = CubeReader.getFocalPlaneRaw il r l b s ∧
    CubeReader.getPixel il r l s b = CubeReader.getFocalPlaneDepthRaw il r s b l := by
  cases il <;>
    exact ⟨rfl, rfl, rfl, rfl⟩

/-- The inner offset of a two-level row-major index is below the divisor. -/
theorem inner_lt (i j I J : Nat) (hi : i < I) (hj : j < J) : i * J + j < I * J := by
  have h1 : i * J + j < (i + 1) * J := by
    rw [Nat.succ_mul]; omega
  have h2 : (i + 1) * J ≤ I * J := Nat.mul_le_mul_right J hi
  omega

/-- C2: for every interleave and every in-range index triple,
`flatToLocation` inverts `locationToFlat`. -/
theorem flat_roundtrip (il : Interleave) (r : MMapReader) (l s b : Nat)
    (hl : l < r.lines) (hs : s < r.samples) (hb : b < r.bands) :
    CubeReader.flatToLocation il r (CubeReader.locationToFlat il r l s b) = (l, s, b) := by
  cases il
  case bip =>
    simp only [CubeReader.flatToLocation, CubeReader.locationToFlat,
      MMapBIPCubeReader.flatToLocation, MMapBIPCubeReader.locationToFlat]
    have hin : s * r.bands + b < r.bands * r.samples := by
      have := inner_lt s b r.samples r.bands hs hb
      rw [Nat.mul_comm r.bands r.samples]; exact this
    have e1 : l * r.bands * r.samples + s * r.bands + b
        = l * (r.bands * r.samples) + (s * r.bands + b) := by ring
    rw [e1]
    obtain ⟨d1, m1⟩ := flat_div_mod l (s * r.bands + b) (r.bands * r.samples) hin
    rw [d1, m1]
    obtain ⟨d2, m2⟩ := flat_div_mod s b r.bands hb
    rw [d2, m2]
  case bil =>
    simp only [CubeReader.flatToLocation, CubeReader.locationToFlat,
      MMapBILCubeReader.flatToLocation, MMapBILCubeReader.locationToFlat]
    have hin : b * r.samples + s < r.bands * r.samples :=
      inner_lt b s r.bands r.samples hb hs
    have e1 : l * r.bands * r.samples + b * r.samples + s
        = l * (r.bands * r.samples) + (b * r.samples + s) := by ring
    rw [e1]
    obtain ⟨d1, m1⟩ := flat_div_mod l (b * r.samples + s) (r.bands * r.samples) hin
    rw [d1, m1]
    obtain ⟨d2, m2⟩ := flat_div_mod b s r.samples hs
    rw [d2, m2]
  case bsq =>
    simp only [CubeReader.flatToLocation, CubeReader.locationToFlat,
      MMapBSQCubeReader.flatToLocation, MMapBSQCubeReader.locationToFlat]
    have hin : l * r.samples + s < r.lines * r.samples :=
      inner_lt l s r.lines r.samples hl hs
    have e1 : b * r.lines * r.samples + l * r.samples + s
        = b * (r.lines * r.samples) + (l * r.samples + s) := by ring
    rw [e1]
    obtain ⟨d1, m1⟩ := flat_div_mod b (l * r.samples + s) (r.lines * r.samples) hin
    rw [d1, m1]
    obtain ⟨d2, m2⟩ := flat_div_mod l s r.samples hs
    rw [d2, m2]

/-- C2 witness: the scenario-S1 instance `flat_to_loc(59) = (3,4,2)` on the
4 x 5 x 3 BIP cube, obtained from the round-trip theorem at `(3,4,2)`. -/
theorem flat_roundtrip_witness :
    (3 : Nat) < 4 ∧ (4 : Nat) < 5 ∧ (2 : Nat) < 3 ∧
    CubeReader.flatToLocation Interleave.bip ⟨4, 5, 3, fun i => (i : Int)⟩
      (CubeReader.locationToFlat Interleave.bip ⟨4, 5, 3, fun i => (i : Int)⟩ 3 4 2)
      = (3, 4, 2) :=
  ⟨by decide, by decide, by decide,
   flat_roundtrip Interleave.bip ⟨4, 5, 3, fun i => (i : Int)⟩ 3 4 2
     (by decide) (by decide) (by decide)⟩

/-- C4 counterexample: on the 1 x 2 x 3 BIP cube with arange data,
`getLineOfSpectraCopy(0)` has 2 (= samples) rows, not 3 (= bands) as the
claimed (bands x samples) shape requires, and its element at `[0][1]` is the
pixel at (sample 0, band 1), not the pixel at (sample 1, band 0) that a
(bands x samples) layout would place there. -/
theorem lineOfSpectraCopy_claim_cex :
    (CubeReader.getLineOfSpectraCopy Interleave.bip ⟨1, 2, 3, fun i => (i : Int)⟩ 0).length ≠ 3 ∧
    ((CubeReader.getLineOfSpectraCopy Interleave.bip ⟨1, 2, 3, fun i => (i : Int)⟩ 0)[0]?).bind
        (fun row => row[1]?)
      ≠ some (CubeReader.getPixel Interleave.bip ⟨1, 2, 3, fun i => (i : Int)⟩ 0 1 0) := by
  constructor
  · decide
  · decide

/-- C4 amended: for every interleave and in-range line, `getLineOfSpectraCopy`
returns an owned (samples x bands) array whose element at `[s][b]` is
`getPixel(l, s, b)`. -/
theorem lineOfSpectraCopy_amended (il : Interleave) (r : MMapReader) (l s b : Nat)
    (hl : l < r.lines) (hs : s < r.samples) (hb : b < r.bands) :
    (CubeReader.getLineOfSpectraCopy il r l).length = r.samples ∧
    (∀ s2, s2 < r.samples → ∃ row, (CubeReader.getLineOfSpectraCopy il r l)[s2]? = some row ∧
      row.length = r.bands) ∧
    ((CubeReader.getLineOfSpectraCopy il r l)[s]?).bind (fun row => row[b]?)
      = some (CubeReader.getPixel il r l s b) := by
  cases il <;>
  · refine ⟨by simp [CubeReader.getLineOfSpectraCopy, MMapBIPCubeReader.getLineOfSpectraCopy,
      MMapBILCubeReader.getLineOfSpectraCopy, MMapBSQCubeReader.getLineOfSpectraCopy], ?_, ?_⟩
    · intro s2 hs2
      refine ⟨_, range_map_getElem? _ _ _ hs2, by simp⟩
    · show (((List.range r.samples).map _)[s]?).bind _ = _
      rw [range_map_getElem? _ _ _ hs]
      show (((List.range r.bands).map _)[b]?) = _
      rw [range_map_getElem? _ _ _ hb]
      rfl

/-- C4 witness: the amended statement instantiated on the 1 x 2 x 3 BIP cube
with arange data at line 0, sample 1, band 2. -/
theorem lineOfSpectraCopy_amended_witness :
    (0 : Nat) < 1 ∧ (1 : Nat) < 2 ∧ (2 : Nat) < 3 ∧
    ((CubeReader.getLineOfSpectraCopy Interleave.bip ⟨1, 2, 3, fun i => (i : Int)⟩ 0).length = 2 ∧
     (∀ s2, s2 < 2 → ∃ row,
        (CubeReader.getLineOfSpectraCopy Interleave.bip ⟨1, 2, 3, fun i => (i : Int)⟩ 0)[s2]?
          = some row ∧ row.length = 3) ∧
     ((CubeReader.getLineOfSpectraCopy Interleave.bip ⟨1, 2, 3, fun i => (i : Int)⟩ 0)[1]?).bind
        (fun row => row[2]?)
      = some (CubeReader.getPixel Interleave.bip ⟨1, 2, 3, fun i => (i : Int)⟩ 0 1 2)) :=
  ⟨by decide, by decide, by decide,
   lineOfSpectraCopy_amended Interleave.bip ⟨1, 2, 3, fun i => (i : Int)⟩ 0 1 2
     (by decide) (by decide) (by decide)⟩

/-- C8: three readers over the three interleaves holding the same logical
contents produce identical `getLineOfSpectraCopy` results on every line:
the common (samples x bands) matrix whose `[s][b]` entry is the pixel. -/
theorem lineOfSpectraCopy_interleave_agree
    (rp rl rq : MMapReader)
    (hS1 : rl.samples = rp.samples) (hB1 : rl.bands = rp.bands)
    (hS2 : rq.samples = rp.samples) (hB2 : rq.bands = rp.bands)
    (hpix : ∀ l s b, l < rp.lines → s < rp.samples → b < rp.bands →
      MMapBILCubeReader.getPixel rl l s b = MMapBIPCubeReader.getPixel rp l s b ∧
      MMapBSQCubeReader.getPixel rq l s b = MMapBIPCubeReader.getPixel rp l s b)
    (l : Nat) (hl : l < rp.lines) :
    MMapBILCubeReader.getLineOfSpectraCopy rl l
      = MMapBIPCubeReader.getLineOfSpectraCopy rp l ∧
    MMapBSQCubeReader.getLineOfSpectraCopy rq l
      = MMapBIPCubeReader.getLineOfSpectraCopy rp l ∧
    (MMapBIPCubeReader.getLineOfSpectraCopy rp l).length = rp.samples ∧
    ∀ s b, s < rp.samples → b < rp.bands →
      ((MMapBIPCubeReader.getLineOfSpectraCopy rp l)[s]?).bind (fun row => row[b]?)
        = some (MMapBIPCubeReader.getPixel rp l s b) := by
  refine ⟨?_, ?_, by simp [MMapBIPCubeReader.getLineOfSpectraCopy], ?_⟩
  · show (List.range rl.samples).map _ = (List.range rp.samples).map _
    rw [hS1, hB1]
    refine List.map_congr_left ?_
    intro s hsmem
    refine List.map_congr_left ?_
    intro b hbmem
    exact (hpix l s b hl (List.mem_range.mp hsmem) (List.mem_range.mp hbmem)).1
  · show (List.range rq.samples).map _ = (List.range rp.samples).map _
    rw [hS2, hB2]
    refine List.map_congr_left ?_
    intro s hsmem
    refine List.map_congr_left ?_
    intro b hbmem
    exact (hpix l s b hl (List.mem_range.mp hsmem) (List.mem_range.mp hbmem)).2
  · intro s b hs hb
    show (((List.range rp.samples).map _)[s]?).bind _ = _
    rw [range_map_getElem? _ _ _ hs]
    show (((List.range rp.bands).map _)[b]?) = _
    rw [range_map_getElem? _ _ _ hb]
    rfl

/-- C8 witness: 1 x 2 x 2 arange contents stored under BIP, BIL, and BSQ
layouts; the agreement theorem applied at line 0. -/
theorem lineOfSpectraCopy_interleave_agree_witness :
    (∀ l s b, l < 1 → s < 2 → b < 2 →
      MMapBILCubeReader.getPixel ⟨1, 2, 2, fun p => (([0, 2, 1, 3] : List Int).getD p 0)⟩ l s b
        = MMapBIPCubeReader.getPixel ⟨1, 2, 2, fun p => (p : Int)⟩ l s b ∧
      MMapBSQCubeReader.getPixel ⟨1, 2, 2, fun p => (([0, 2, 1, 3] : List Int).getD p 0)⟩ l s b
        = MMapBIPCubeReader.getPixel ⟨1, 2, 2, fun p => (p : Int)⟩ l s b) ∧
    (MMapBILCubeReader.getLineOfSpectraCopy
        ⟨1, 2, 2, fun p => (([0, 2, 1, 3] : List Int).getD p 0)⟩ 0
      = MMapBIPCubeReader.getLineOfSpectraCopy ⟨1, 2, 2, fun p => (p : Int)⟩ 0 ∧
     MMapBSQCubeReader.getLineOfSpectraCopy
        ⟨1, 2, 2, fun p => (([0, 2, 1, 3] : List Int).getD p 0)⟩ 0
      = MMapBIPCubeReader.getLineOfSpectraCopy ⟨1, 2, 2, fun p => (p : Int)⟩ 0 ∧
     (MMapBIPCubeReader.getLineOfSpectraCopy ⟨1, 2, 2, fun p => (p : Int)⟩ 0).length = 2 ∧
     ∀ s b, s < 2 → b < 2 →
       ((MMapBIPCubeReader.getLineOfSpectraCopy ⟨1, 2, 2, fun p => (p : Int)⟩ 0)[s]?).bind
          (fun row => row[b]?)
        = some (MMapBIPCubeReader.getPixel ⟨1, 2, 2, fun p => (p : Int)⟩ 0 s b)) := by
  have hpix : ∀ l s b, l < 1 → s < 2 → b < 2 →
      MMapBILCubeReader.getPixel ⟨1, 2, 2, fun p => (([0, 2, 1, 3] : List Int).getD p 0)⟩ l s b
        = MMapBIPCubeReader.getPixel ⟨1, 2, 2, fun p => (p : Int)⟩ l s b ∧
      MMapBSQCubeReader.getPixel ⟨1, 2, 2, fun p => (([0, 2, 1, 3] : List Int).getD p 0)⟩ l s b
        = MMapBIPCubeReader.getPixel ⟨1, 2, 2, fun p => (p : Int)⟩ l s b := by
    intro l s b hl hs hb
    interval_cases l <;> interval_cases s <;> interval_cases b <;> exact ⟨by decide, by decide⟩
  exact ⟨hpix,
    lineOfSpectraCopy_interleave_agree
      ⟨1, 2, 2, fun p => (p : Int)⟩
      ⟨1, 2, 2, fun p => (([0, 2, 1, 3] : List Int).getD p 0)⟩
      ⟨1, 2, 2, fun p => (([0, 2, 1, 3] : List Int).getD p 0)⟩
      rfl rfl rfl rfl hpix 0 (by decide)⟩

/-- C1 witness at the concrete cube of scenario S1 (4 x 5 x 3, arange data). -/
theorem pixel_consistency_witness :
    (1 : Nat) < 4 ∧ (2 : Nat) < 5 ∧ (1 : Nat) < 3 ∧
    (CubeReader.getPixel Interleave.bip ⟨4, 5, 3, fun i => (i : Int)⟩ 1 2 1 =
      CubeReader.getBandRaw Interleave.bip ⟨4, 5, 3, fun i => (i : Int)⟩ 1 1 2 ∧
     CubeReader.getPixel Interleave.bip ⟨4, 5, 3, fun i => (i : Int)⟩ 1 2 1 =
      CubeReader.getSpectraRaw Interleave.bip ⟨4, 5, 3, fun i => (i : Int)⟩ 1 2 1 ∧
     CubeReader.getPixel Interleave.bip ⟨4, 5, 3, fun i => (i : Int)⟩ 1 2 1 =
      CubeReader.getFocalPlaneRaw Interleave.bip ⟨4, 5, 3, fun i => (i : Int)⟩ 1 1 2 ∧
     CubeReader.getPixel Interleave.bip ⟨4, 5, 3, fun i => (i : Int)⟩ 1 2 1 =
      CubeReader.getFocalPlaneDepthRaw Interleave.bip ⟨4, 5, 3, fun i => (i : Int)⟩ 2 1 1) :=
  ⟨by decide, by decide, by decide,
   pixel_consistency Interleave.bip ⟨4, 5, 3, fun i => (i : Int)⟩ 1 2 1
     (by decide) (by decide) (by decide)⟩

/-- C9: calling `open()` with no url argument on a cube whose reader is
already bound leaves the whole descriptor state unchanged — no new reader is
constructed — and an error is raised exactly when no url is recorded. -/
theorem open_noop_when_bound (mk : CubeState → MMapReader) (c : CubeState)
    (h : c.cube_io.isSome) :
    (Cube.openState mk none c).1 = c ∧
    ((Cube.openState mk none c).2 = none ↔ c.url.isSome) := by
  rcases hio : c.cube_io with _ | rd
  · rw [hio] at h
    simp at h
  · rcases hu : c.url with _ | u
    · constructor
      · simp [Cube.openState, hu]
      · simp [Cube.openState, hu]
    · constructor
      · simp [Cube.openState, hu, hio]
      · simp [Cube.openState, hu, hio]

/-- C9 witness: re-opening `openTestCube` (reader bound, url recorded) with
no url is a no-op and raises nothing. -/
theorem open_noop_when_bound_witness :
    openTestCube.cube_io.isSome ∧
    ((Cube.openState (fun _ => ⟨0, 0, 0, fun _ => 0⟩) none openTestCube).1
        = openTestCube ∧
     ((Cube.openState (fun _ => ⟨0, 0, 0, fun _ => 0⟩) none openTestCube).2 = none ↔
        openTestCube.url.isSome)) :=
  ⟨rfl, open_noop_when_bound (fun _ => ⟨0, 0, 0, fun _ => 0⟩) openTestCube rfl⟩

/-- Membership in the wavelength window: in-range channel, good band,
wavelength inside `[wmin, wmax]`. -/
theorem bandWindow_mem (c : CubeState) (wmin wmax : ℚ) (ch : Nat) :
    ch ∈ Cube.bandWindow c wmin wmax ↔ ch < c.bands.toNat ∧ c.bbl.getD ch 0 = 1 ∧
      wmin ≤ c.wavelengths.getD ch 0 ∧ c.wavelengths.getD ch 0 ≤ wmax := by
  simp [Cube.bandWindow, List.mem_filter, List.mem_range, and_assoc]

/-- When the window is non-empty, `getBandListByWavelength` returns it. -/
theorem gbl_eq_window (c : CubeState) (wavelen_min wavelen_max : ℚ)
    (units : String) (hne : c.wavelengths.length ≠ 0)
    (hwin : Cube.normWindow c wavelen_min wavelen_max units ≠ []) :
    Cube.getBandListByWavelength c wavelen_min wavelen_max units
      = Cube.normWindow c wavelen_min wavelen_max units := by
  simp only [Cube.normWindow] at hwin ⊢
  simp only [Cube.getBandListByWavelength]
  rw [if_neg hne, if_neg hwin]

/-- Empty window, center below the first wavelength: the first good band. -/
theorem gbl_below (c : CubeState) (wavelen_min wavelen_max : ℚ)
    (units : String) (hne : c.wavelengths.length ≠ 0)
    (hwin : Cube.normWindow c wavelen_min wavelen_max units = [])
    (hlow : Cube.windowCenter c wavelen_min wavelen_max units
      < c.wavelengths.getD 0 0) :
    Cube.getBandListByWavelength c wavelen_min wavelen_max units
      = ((List.range c.bands.toNat).find? fun ch =>
          decide (c.bbl.getD ch 0 = 1)).toList := by
  simp only [Cube.normWindow] at hwin
  simp only [Cube.windowCenter] at hlow
  simp only [Cube.getBandListByWavelength]
  rw [if_neg hne, if_pos hwin, if_pos hlow]

/-- Empty window, center above the last wavelength: the last good band. -/
theorem gbl_above (c : CubeState) (wavelen_min wavelen_max : ℚ)
    (units : String) (hne : c.wavelengths.length ≠ 0)
    (hwin : Cube.normWindow c wavelen_min wavelen_max units = [])
    (hlow : ¬ Cube.windowCenter c wavelen_min wavelen_max units
      < c.wavelengths.getD 0 0)
    (hhigh : c.wavelengths.getD (c.bands.toNat - 1) 0
      < Cube.windowCenter c wavelen_min wavelen_max units) :
    Cube.getBandListByWavelength c wavelen_min wavelen_max units
      = (((List.range c.bands.toNat).reverse).find? fun ch =>
          decide (c.bbl.getD ch 0 = 1)).toList := by
  simp only [Cube.normWindow] at hwin
  simp only [Cube.windowCenter] at hlow hhigh
  simp only [Cube.getBandListByWavelength]
  rw [if_neg hne, if_pos hwin, if_neg hlow, if_pos hhigh]

/-- Empty window, center between the extreme wavelengths, straddling good
band found: that band or its successor, whichever is closer. -/
theorem gbl_straddle (c : CubeState) (wavelen_min wavelen_max : ℚ)
    (units : String) (ch : Nat) (hne : c.wavelengths.length ≠ 0)
    (hwin : Cube.normWindow c wavelen_min wavelen_max units = [])
    (hlow : ¬ Cube.windowCenter c wavelen_min wavelen_max units
      < c.wavelengths.getD 0 0)
    (hhigh : ¬ c.wavelengths.getD (c.bands.toNat - 1) 0
      < Cube.windowCenter c wavelen_min wavelen_max units)
    (hfind : Cube.straddleSearch c
      (Cube.windowCenter c wavelen_min wavelen_max units) = some ch) :
    Cube.getBandListByWavelength c wavelen_min wavelen_max units
      = (if Cube.windowCenter c wavelen_min wavelen_max units
              - c.wavelengths.getD ch 0
            < c.wavelengths.getD (ch + 1) 0
              - Cube.windowCenter c wavelen_min wavelen_max units
         then [ch] else [ch + 1]) := by
  simp only [Cube.normWindow] at hwin
  simp only [Cube.windowCenter] at hlow hhigh hfind ⊢
  simp only [Cube.getBandListByWavelength]
  rw [if_neg hne, if_pos hwin, if_neg hlow, if_neg hhigh, hfind]

/-- Empty window, center between the extreme wavelengths, no straddling
good band: the empty list. -/
theorem gbl_no_straddle (c : CubeState) (wavelen_min wavelen_max : ℚ)
    (units : String) (hne : c.wavelengths.length ≠ 0)
    (hwin : Cube.normWindow c wavelen_min wavelen_max units = [])
    (hlow : ¬ Cube.windowCenter c wavelen_min wavelen_max units
      < c.wavelengths.getD 0 0)
    (hhigh : ¬ c.wavelengths.getD (c.bands.toNat - 1) 0
      < Cube.windowCenter c wavelen_min wavelen_max units)
    (hfind : Cube.straddleSearch c
      (Cube.windowCenter c wavelen_min wavelen_max units) = none) :
    Cube.getBandListByWavelength c wavelen_min wavelen_max units = [] := by
  simp only [Cube.normWindow] at hwin
  simp only [Cube.windowCenter] at hlow hhigh hfind
  simp only [Cube.getBandListByWavelength]
  rw [if_neg hne, if_pos hwin, if_neg hlow, if_neg hhigh, hfind]

/-- C5 counterexample: on `badBandCube` (wavelengths 400, 410, 420 nm, the
middle band flagged bad), `getBandListByWavelength(410)` has an empty window
whose center 410 lies between the first and last wavelengths, yet the result
is the empty list — not a one-element list holding the band whose wavelength
is closest to the center (band 1, at distance 0). -/
theorem getBandListByWavelength_cex :
    Cube.getBandListByWavelength badBandCube 410 (-1) "nm" = [] ∧
    (Cube.getBandListByWavelength badBandCube 410 (-1) "nm").length ≠ 1 := by
  have h : Cube.getBandListByWavelength badBandCube 410 (-1) "nm" = [] := by
    apply gbl_no_straddle
    · norm_num [badBandCube]
    · norm_num [Cube.normWindow, Cube.bandWindow, Cube.normalizeUnits,
        badBandCube, List.range_succ]
      intro a ha
      interval_cases a <;> norm_num
    · norm_num [Cube.windowCenter, Cube.normalizeUnits, badBandCube]
    · norm_num [Cube.windowCenter, Cube.normalizeUnits, badBandCube]
      simp
      norm_num
    · norm_num [Cube.straddleSearch, Cube.windowCenter, Cube.normalizeUnits,
        badBandCube, List.range_succ]
      intro x hx
      simp at hx
      interval_cases x <;> norm_num
  exact ⟨h, by rw [h]; decide⟩

/-- C5 amended: with a non-empty wavelength list, the result is the
ascending list of good bands inside the normalized window; when the window
is empty the fallbacks are: first good band when the window center lies
below the first wavelength; last good band when it lies above the last
wavelength; otherwise the first good band whose wavelength pair straddles
the center, or its successor, whichever is closer to the center (ties to the
successor) — and the empty list when no good straddling band exists.  On the
P6 cube (wavelengths 400 + 10·i nm, all good), the window (500, 550) yields
bands 10..15, the point query 300 yields band 0, and 2000 yields the last
band, 19. -/
theorem getBandListByWavelength_amended (c : CubeState)
    (wavelen_min wavelen_max : ℚ) (units : String)
    (hne : c.wavelengths.length ≠ 0) :
    (∀ ch, ch ∈ Cube.normWindow c wavelen_min wavelen_max units ↔
      ch < c.bands.toNat ∧ c.bbl.getD ch 0 = 1 ∧
      Cube.normalizeUnits c wavelen_min units ≤ c.wavelengths.getD ch 0 ∧
      c.wavelengths.getD ch 0 ≤ Cube.normalizeUnits c
        (if wavelen_max < 0 then wavelen_min else wavelen_max) units) ∧
    (Cube.normWindow c wavelen_min wavelen_max units ≠ [] →
      Cube.getBandListByWavelength c wavelen_min wavelen_max units
        = Cube.normWindow c wavelen_min wavelen_max units) ∧
    (Cube.normWindow c wavelen_min wavelen_max units = [] →
      Cube.windowCenter c wavelen_min wavelen_max units
          < c.wavelengths.getD 0 0 →
      Cube.getBandListByWavelength c wavelen_min wavelen_max units
        = ((List.range c.bands.toNat).find? fun ch =>
            decide (c.bbl.getD ch 0 = 1)).toList) ∧
    (Cube.normWindow c wavelen_min wavelen_max units = [] →
      ¬ Cube.windowCenter c wavelen_min wavelen_max units
          < c.wavelengths.getD 0 0 →
      c.wavelengths.getD (c.bands.toNat - 1) 0
          < Cube.windowCenter c wavelen_min wavelen_max units →
      Cube.getBandListByWavelength c wavelen_min wavelen_max units
        = (((List.range c.bands.toNat).reverse).find? fun ch =>
            decide (c.bbl.getD ch 0 = 1)).toList) ∧
    (Cube.normWindow c wavelen_min wavelen_max units = [] →
      ¬ Cube.windowCenter c wavelen_min wavelen_max units
          < c.wavelengths.getD 0 0 →
      ¬ c.wavelengths.getD (c.bands.toNat - 1) 0
          < Cube.windowCenter c wavelen_min wavelen_max units →
      ∀ ch, Cube.straddleSearch c
          (Cube.windowCenter c wavelen_min wavelen_max units) = some ch →
        Cube.getBandListByWavelength c wavelen_min wavelen_max units
          = (if Cube.windowCenter c wavelen_min wavelen_max units
                  - c.wavelengths.getD ch 0
                < c.wavelengths.getD (ch + 1) 0
                  - Cube.windowCenter c wavelen_min wavelen_max units
             then [ch] else [ch + 1])) ∧
    (Cube.normWindow c wavelen_min wavelen_max units = [] →
      ¬ Cube.windowCenter c wavelen_min wavelen_max units
          < c.wavelengths.getD 0 0 →
      ¬ c.wavelengths.getD (c.bands.toNat - 1) 0
          < Cube.windowCenter c wavelen_min wavelen_max units →
      Cube.straddleSearch c
          (Cube.windowCenter c wavelen_min wavelen_max units) = none →
      Cube.getBandListByWavelength c wavelen_min wavelen_max units = []) ∧
    Cube.getBandListByWavelength wavelengthTestCube 500 550 "nm"
      = [10, 11, 12, 13, 14, 15] ∧
    Cube.getBandListByWavelength wavelengthTestCube 300 (-1) "nm" = [0] ∧
    Cube.getBandListByWavelength wavelengthTestCube 2000 (-1) "nm" = [19] := by
  have hneW : wavelengthTestCube.wavelengths.length ≠ 0 := by
    simp only [wavelengthTestCube, List.length_map, List.length_range]
    decide
  have hnorm : ∀ v : ℚ, Cube.normalizeUnits wavelengthTestCube v "nm" = v := by
    intro v
    norm_num [Cube.normalizeUnits, units_scale, wavelengthTestCube]
  refine ⟨?_, gbl_eq_window c wavelen_min wavelen_max units hne,
    gbl_below c wavelen_min wavelen_max units hne,
    gbl_above c wavelen_min wavelen_max units hne,
    fun hwin hlow hhigh ch hfind =>
      gbl_straddle c wavelen_min wavelen_max units ch hne hwin hlow hhigh hfind,
    gbl_no_straddle c wavelen_min wavelen_max units hne, ?_, ?_, ?_⟩
  · intro ch
    simp only [Cube.normWindow]
    exact bandWindow_mem c _ _ ch
  · have hif : (if (550 : ℚ) < 0 then (500 : ℚ) else 550) = 550 := by norm_num
    have hw1 : Cube.normWindow wavelengthTestCube 500 550 "nm"
        = [10, 11, 12, 13, 14, 15] := by
      simp only [Cube.normWindow]
      rw [hif, hnorm 500, hnorm 550]
      simp only [Cube.bandWindow, wavelengthTestCube, Int.reduceToNat]
      norm_num [List.range_succ, List.replicate]
    rw [gbl_eq_window wavelengthTestCube 500 550 "nm" hneW
        (by rw [hw1]; decide), hw1]
  · have hif : (if (-1 : ℚ) < 0 then (300 : ℚ) else -1) = 300 := by norm_num
    have hw2 : Cube.normWindow wavelengthTestCube 300 (-1) "nm" = [] := by
      simp only [Cube.normWindow]
      rw [hif, hnorm 300]
      simp only [Cube.bandWindow, wavelengthTestCube, Int.reduceToNat]
      norm_num [List.range_succ, List.replicate]
    have hc2 : Cube.windowCenter wavelengthTestCube 300 (-1) "nm" = 300 := by
      simp only [Cube.windowCenter]
      rw [hif, hnorm 300]
      norm_num
    rw [gbl_below wavelengthTestCube 300 (-1) "nm" hneW hw2
        (by rw [hc2]; norm_num [wavelengthTestCube, List.range_succ])]
    simp only [wavelengthTestCube, Int.reduceToNat]
    norm_num [List.range_succ, List.replicate]
  · have hif : (if (-1 : ℚ) < 0 then (2000 : ℚ) else -1) = 2000 := by norm_num
    have hw3 : Cube.normWindow wavelengthTestCube 2000 (-1) "nm" = [] := by
      simp only [Cube.normWindow]
      rw [hif, hnorm 2000]
      simp only [Cube.bandWindow, wavelengthTestCube, Int.reduceToNat]
      norm_num [List.range_succ, List.replicate]
    have hc3 : Cube.windowCenter wavelengthTestCube 2000 (-1) "nm" = 2000 := by
      simp only [Cube.windowCenter]
      rw [hif, hnorm 2000]
      norm_num
    rw [gbl_above wavelengthTestCube 2000 (-1) "nm" hneW hw3
        (by rw [hc3]; norm_num [wavelengthTestCube, List.range_succ])
        (by rw [hc3]
            simp only [wavelengthTestCube, Int.reduceToNat]
            norm_num [List.range_succ])]
    simp only [wavelengthTestCube, Int.reduceToNat]
    norm_num [List.range_succ, List.replicate]

/-- C5 witness: the amended characterization applied to `badBandCube` at the
point query 410 nm, projected to the concrete P6 instance
`get_band_list_by_wavelength(300) = [0]`. -/
theorem getBandListByWavelength_amended_witness :
    badBandCube.wavelengths.length ≠ 0 ∧
    Cube.getBandListByWavelength wavelengthTestCube 300 (-1) "nm" = [0] :=
  ⟨by norm_num [badBandCube],
   (getBandListByWavelength_amended badBandCube 410 (-1) "nm"
      (by norm_num [badBandCube])).2.2.2.2.2.2.2.1⟩
